import Mathlib

/-!
Verification development for the buffett-code-api-tools repository
(`bc_api.py`, `bc_data.py`).  Python functions are shallowly embedded as
Lean definitions: strings become `List Char`, pandas per-entity tables
become association lists, float NaN becomes `none : Option ℝ`, and the
resilient fetch executor becomes a fuel-indexed state-stepping function
whose external calls and stop flag are supplied by an oracle environment.
-/

namespace BC

/-! ## String utilities: `str.replace` and the quote-aware tokenizer of
`BCDataAbs.replace_value_str` (bc_data.py lines 77-90). -/

/-- `listReplaceF fuel s pat repl` embeds Python `s.replace(pat, repl)`:
left-to-right, non-overlapping replacement.  `fuel ≥ s.length` suffices;
the source never calls `replace` with an empty pattern (column names and
the `'"'` pattern are nonempty), so that case is not modelled. -/
def listReplaceF : Nat → List Char → List Char → List Char → List Char
  | 0, s, _, _ => s
  | _ + 1, [], _, _ => []
  | f + 1, x :: rest, pat, repl =>
    if !pat.isEmpty && pat.isPrefixOf (x :: rest) then
      repl ++ listReplaceF f ((x :: rest).drop pat.length) pat repl
    else
      x :: listReplaceF f rest pat repl

/-- Python `s.replace(pat, repl)` on character lists. -/
def listReplace (s pat repl : List Char) : List Char :=
  listReplaceF s.length s pat repl

/-- A character is one of the two quote characters of the regex
`r"'[^'\"]*'|\"[^'\"]*\"|[^'\"]*"` used by `replace_value_str`. -/
def isQuote (c : Char) : Bool := c = '\'' || c = '"'

/-- `tokenizeF fuel s` embeds how `re.sub` with the pattern
`'[^'"]*'|"[^'"]*"|[^'"]*` walks the string `s`: a quoted literal whose
body contains no quote of either kind is one token, a maximal run of
non-quote characters is one token, and an unmatched quote character is
passed through as a one-character token (the zero-width-match case of
`re.sub`, whose verbatim-copied character we represent as its own token;
the replacement callback leaves both forms unchanged).
The concatenation of the tokens is always the input string. -/
def tokenizeF : Nat → List Char → List (List Char)
  | 0, _ => []
  | _ + 1, [] => []
  | f + 1, c :: rest =>
    if isQuote c then
      let content := rest.takeWhile (fun x => !isQuote x)
      match rest.dropWhile (fun x => !isQuote x) with
      | d :: rest2 =>
        if d = c then (c :: (content ++ [c])) :: tokenizeF f rest2
        else [c] :: tokenizeF f rest
      | [] => [c] :: tokenizeF f rest
    else
      (c :: rest.takeWhile (fun x => !isQuote x)) ::
        tokenizeF f (rest.dropWhile (fun x => !isQuote x))

/-- Tokenization of a string by the `replace_value_str` regex. -/
def tokenize (s : List Char) : List (List Char) := tokenizeF s.length s

/-- The replacement callback `__replace_val` of `replace_value_str`:
a token starting with a quote is returned unchanged, any other token has
every occurrence of the column name `c` replaced by `{df_name}['{c}']`. -/
def replaceVal (c : List Char) (dfName : List Char) (tok : List Char) : List Char :=
  match tok with
  | [] => []
  | t :: _ =>
    if isQuote t then tok
    else listReplace tok c (dfName ++ ('[' :: '\'' :: c ++ ['\'', ']']))

/-- Stable insertion (descending length) used to embed Python's stable
`sorted(columns, key=lambda s: len(s), reverse=True)`. -/
def insertLenDesc (x : List Char) : List (List Char) → List (List Char)
  | [] => [x]
  | y :: t => if y.length > x.length then y :: insertLenDesc x t else x :: y :: t

/-- `sorted(columns, key=len, reverse=True)`: stable, longest first. -/
def sortLenDesc (columns : List (List Char)) : List (List Char) :=
  columns.foldr insertLenDesc []

/-- `BCDataAbs.replace_value_str(str_list, columns, df_name)`
(bc_data.py lines 77-90): for each column name, longest first, rewrite
every string of `str_list` by replacing the column name inside non-quoted
tokens with `df_name['column']`. -/
def replace_value_str (strList : List (List Char)) (columns : List (List Char))
    (dfName : List Char) : List (List Char) :=
  (sortLenDesc columns).foldl
    (fun sl c => sl.map (fun s => ((tokenize s).map (replaceVal c dfName)).flatten))
    strList

/-! ## `BCAPI.__sliced_tickers_generator` (bc_api.py lines 192-210). -/

/-- `MAX_NUM_COMPANY`: at most 3 tickers per call. -/
def MAX_NUM_COMPANY : Nat := 3

/-- `__sliced_tickers_generator(tickers)`: for
`i in range(ceil(len(tickers)/3))` yield `tickers[3*i : 3*i+3]`. -/
def sliced_tickers (tickers : List Int) : List (List Int) :=
  (List.range ((tickers.length + MAX_NUM_COMPANY - 1) / MAX_NUM_COMPANY)).map
    (fun i => (tickers.drop (MAX_NUM_COMPANY * i)).take MAX_NUM_COMPANY)

/-! ## `BCAPI.__sliced_quarters_generator` (bc_api.py lines 212-258).
A quarter string `"YYYYQn"` is embedded as the pair `(YYYY, n) : Int × Int`. -/

/-- `MAX_NUM_YEAR`: at most 3 years of period span per call. -/
def MAX_NUM_YEAR : Int := 3

/-- `__next_q(year, quarter)`. -/
def nextQ : Int × Int → Int × Int
  | (y, q) => if q > 3 then (y + 1, 1) else (y, q + 1)

/-- `__prev_q(year, quarter)`. -/
def prevQ : Int × Int → Int × Int
  | (y, q) => if q < 2 then (y - 1, 4) else (y, q - 1)

/-- The `while True` loop of `__sliced_quarters_generator`, fuel-indexed.
One loop iteration advances the chunk start by at least 3 years whenever
it yields a non-final chunk, so `(ey - sy).toNat + 1` units of fuel always
suffice (see `slicedQuartersF_fuel_irrelevant`-style arguments below). -/
def slicedQuartersF : Nat → Int → Int → Int → Int → List ((Int × Int) × (Int × Int))
  | 0, _, _, _, _ => []
  | f + 1, sy, sq, ey, eq =>
    let dy := ey - sy
    let dq := eq - sq
    if dy > MAX_NUM_YEAR ∨ (dy = MAX_NUM_YEAR ∧ dq ≥ 0) then
      let e' := prevQ (sy + MAX_NUM_YEAR, sq)
      let s' := nextQ e'
      ((sy, sq), e') :: slicedQuartersF f s'.1 s'.2 ey eq
    else
      [((sy, sq), (ey, eq))]

/-- `__sliced_quarters_generator(start, end)` as a list of
`(chunk start, chunk end)` quarter pairs. -/
def sliced_quarters (s e : Int × Int) : List ((Int × Int) × (Int × Int)) :=
  slicedQuartersF ((e.1 - s.1).toNat + 1) s.1 s.2 e.1 e.2

/-- Position of a quarter on the quarter axis (4 quarters per year);
used to express "spans at most 3 years" (12 quarter slots, so the
inclusive end sits at most 11 slots after the start). -/
def qidx : Int × Int → Int
  | (y, q) => 4 * y + q

/-! ## Lemmas about the entity slicer (claim C4). -/

theorem sliced_tickers_cons3 (a b c : Int) (rest : List Int) :
    sliced_tickers (a :: b :: c :: rest) = [a, b, c] :: sliced_tickers rest := by
  unfold sliced_tickers MAX_NUM_COMPANY
  have hlen : (a :: b :: c :: rest).length + 3 - 1 = (rest.length + 3 - 1) + 3 := by
    simp only [List.length_cons]; omega
  rw [hlen, Nat.add_div_right _ (by norm_num), List.range_succ_eq_map]
  simp only [List.map_cons, List.map_map]
  rfl

theorem sliced_tickers_nil : sliced_tickers [] = [] := rfl

theorem sliced_tickers_one (a : Int) : sliced_tickers [a] = [[a]] := by
  simp [sliced_tickers, MAX_NUM_COMPANY, List.range_succ, List.range_zero]

theorem sliced_tickers_two (a b : Int) : sliced_tickers [a, b] = [[a, b]] := by
  simp [sliced_tickers, MAX_NUM_COMPANY, List.range_succ, List.range_zero]

theorem sliced_tickers_three (a b c : Int) : sliced_tickers [a, b, c] = [[a, b, c]] := by
  simp [sliced_tickers, MAX_NUM_COMPANY, List.range_succ, List.range_zero]

theorem sliced_tickers_flatten : ∀ l : List Int, (sliced_tickers l).flatten = l
  | [] => rfl
  | [a] => by rw [sliced_tickers_one]; rfl
  | [a, b] => by rw [sliced_tickers_two]; rfl
  | [a, b, c] => by rw [sliced_tickers_three]; rfl
  | a :: b :: c :: d :: rest => by
    rw [sliced_tickers_cons3]
    simp only [List.flatten_cons]
    rw [sliced_tickers_flatten (d :: rest)]
    rfl
termination_by l => l.length

theorem sliced_tickers_chunk_le (l : List Int) :
    ∀ c ∈ sliced_tickers l, c.length ≤ 3 := by
  intro c hc
  simp only [sliced_tickers, MAX_NUM_COMPANY, List.mem_map, List.mem_range] at hc
  obtain ⟨i, -, rfl⟩ := hc
  exact List.length_take_le 3 _

theorem sliced_tickers_full :
    ∀ (l : List Int) (i : Nat), i + 1 < (sliced_tickers l).length →
      ((sliced_tickers l).getD i []).length = 3
  | [], i, h => by rw [sliced_tickers_nil] at h; simp at h
  | [a], i, h => by rw [sliced_tickers_one] at h; simp at h
  | [a, b], i, h => by rw [sliced_tickers_two] at h; simp at h
  | [a, b, c], i, h => by rw [sliced_tickers_three] at h; simp at h
  | a :: b :: c :: d :: rest, i, h => by
    rw [sliced_tickers_cons3] at h ⊢
    cases i with
    | zero => rfl
    | succ j =>
      simp only [List.getD_cons_succ]
      exact sliced_tickers_full (d :: rest) j (by simpa using h)
termination_by l => l.length

/-! ## Lemmas about the period slicer (claim C3). -/

theorem nextQ_prevQ (y q : Int) (h1 : 1 ≤ q) (h4 : q ≤ 4) :
    nextQ (prevQ (y, q)) = (y, q) := by
  by_cases hq : q < 2
  · have h : q = 1 := by omega
    subst h
    norm_num [prevQ, nextQ]
  · have hprev : prevQ (y, q) = (y, q - 1) := by simp [prevQ, hq]
    have hn : ¬ (q - 1 > 3) := by omega
    rw [hprev]
    simp only [nextQ, hn, if_false]
    have h2 : q - 1 + 1 = q := by omega
    rw [h2]

theorem qidx_prevQ_span (sy sq : Int) (h1 : 1 ≤ sq) (h4 : sq ≤ 4) :
    qidx (prevQ (sy + 3, sq)) - qidx (sy, sq) = 11 := by
  simp only [prevQ, qidx]
  split <;> omega

/-- Invariants of the `__sliced_quarters_generator` loop, by induction on
the fuel: the chunk list is nonempty, starts at the requested start,
chains each chunk's start to the quarter after the previous chunk's end,
ends exactly at the requested end, spans at most 3 years per chunk, and
every non-final chunk ends at the quarter preceding `start + 3 years`. -/
theorem slicedQuartersF_spec :
    ∀ (fuel : Nat) (sy sq ey eq : Int), (ey - sy).toNat < fuel →
      1 ≤ sq → sq ≤ 4 → 1 ≤ eq → eq ≤ 4 →
      slicedQuartersF fuel sy sq ey eq ≠ [] ∧
      ((slicedQuartersF fuel sy sq ey eq).headI).1 = (sy, sq) ∧
      ((slicedQuartersF fuel sy sq ey eq).getLastD default).2 = (ey, eq) ∧
      List.Chain' (fun a b => b.1 = nextQ a.2) (slicedQuartersF fuel sy sq ey eq) ∧
      (∀ ab ∈ slicedQuartersF fuel sy sq ey eq, qidx ab.2 - qidx ab.1 ≤ 11) ∧
      (∀ i, i + 1 < (slicedQuartersF fuel sy sq ey eq).length →
        ((slicedQuartersF fuel sy sq ey eq).getD i default).2 =
          prevQ (((slicedQuartersF fuel sy sq ey eq).getD i default).1.1 + 3,
                 ((slicedQuartersF fuel sy sq ey eq).getD i default).1.2)) := by
  intro fuel
  induction fuel with
  | zero => intro sy sq ey eq hf; omega
  | succ f ih =>
    intro sy sq ey eq hf hs1 hs4 he1 he4
    rw [slicedQuartersF]
    simp only [MAX_NUM_YEAR]
    split
    · next hcond =>
      have hdy : 3 ≤ ey - sy := by rcases hcond with h | ⟨h, -⟩ <;> omega
      rw [nextQ_prevQ _ _ hs1 hs4]
      have hf' : (ey - (sy + 3)).toNat < f := by omega
      obtain ⟨hne, hhead, hlast, hchain, hspan, hfull⟩ :=
        ih (sy + 3) sq ey eq hf' hs1 hs4 he1 he4
      obtain ⟨x, xs, hx⟩ : ∃ x xs, slicedQuartersF f (sy + 3) sq ey eq = x :: xs := by
        cases h : slicedQuartersF f (sy + 3) sq ey eq with
        | nil => exact absurd h hne
        | cons x xs => exact ⟨x, xs, rfl⟩
      rw [hx] at hhead hlast hchain hspan hfull ⊢
      refine ⟨by simp, rfl, ?_, ?_, ?_, ?_⟩
      · rw [List.getLastD_cons]
        simpa [List.getLastD_cons] using hlast
      · refine List.Chain'.cons ?_ hchain
        show x.1 = nextQ ((sy, sq), prevQ (sy + 3, sq)).2
        rw [show ((sy, sq), prevQ (sy + 3, sq)).2 = prevQ (sy + 3, sq) from rfl,
            nextQ_prevQ _ _ hs1 hs4]
        exact hhead
      · intro ab hab
        rcases List.mem_cons.mp hab with rfl | h
        · simpa using le_of_eq (qidx_prevQ_span sy sq hs1 hs4)
        · exact hspan ab h
      · intro i hi
        cases i with
        | zero => rfl
        | succ j =>
          simp only [List.getD_cons_succ]
          exact hfull j (by simpa using hi)
    · next hcond =>
      refine ⟨by simp, rfl, rfl, List.chain'_singleton _, ?_, ?_⟩
      · intro ab hab
        rcases List.mem_cons.mp hab with rfl | h
        · simp only [qidx]
          push_neg at hcond
          omega
        · simp at h
      · intro i hi
        simp at hi

/-! ## Per-call duplicate-record handling of `BCAPI.get_quarter`
(bc_api.py lines 305-319).  One per-ticker DataFrame is a list of
`(key, value)` records, the key being the `(fiscal_year, fiscal_quarter)`
MultiIndex level pair (the `ticker` level is constant inside one frame),
embedded as an arbitrary linearly ordered type.  `sort_index` is a stable
lexicographic sort (pandas MultiIndex sorting goes through the stable
`np.lexsort`), and `df[~df.index.duplicated(keep="last")]` keeps a row
exactly when its key does not occur again later. -/

/-- Row comparison used by `sort_index`: compare keys only. -/
def rowLe {K V : Type} [LinearOrder K] (a b : K × V) : Prop := a.1 ≤ b.1

instance {K V : Type} [LinearOrder K] : DecidableRel (rowLe (K := K) (V := V)) :=
  fun a b => inferInstanceAs (Decidable (a.1 ≤ b.1))

instance {K V : Type} [LinearOrder K] : IsTotal (K × V) rowLe :=
  ⟨fun a b => le_total a.1 b.1⟩

instance {K V : Type} [LinearOrder K] : IsTrans (K × V) rowLe :=
  ⟨fun _ _ _ hab hbc => le_trans hab hbc⟩

/-- `df.sort_index()`: stable sort by key. -/
def sort_index {K V : Type} [LinearOrder K] (l : List (K × V)) : List (K × V) :=
  List.insertionSort rowLe l

/-- `df[~df.index.duplicated(keep="last")]`: keep a row exactly when its
key does not occur among the later rows. -/
def dedupKeepLast {K V : Type} [LinearOrder K] : List (K × V) → List (K × V)
  | [] => []
  | kv :: rest =>
    if kv.1 ∈ rest.map Prod.fst then dedupKeepLast rest else kv :: dedupKeepLast rest

/-- The whole per-ticker pipeline of `get_quarter` lines 313-316:
`set_index` + `sort_index` + drop index duplicates keeping the last. -/
def processRows {K V : Type} [LinearOrder K] (l : List (K × V)) : List (K × V) :=
  dedupKeepLast (sort_index l)

theorem filter_orderedInsert_key {K V : Type} [LinearOrder K]
    (k : K) (r : K × V) :
    ∀ l : List (K × V), List.Sorted rowLe l →
      (List.orderedInsert rowLe r l).filter (fun x => decide (x.1 = k)) =
        if r.1 = k then r :: l.filter (fun x => decide (x.1 = k))
        else l.filter (fun x => decide (x.1 = k)) := by
  intro l
  induction l with
  | nil => intro _; simp [List.orderedInsert, List.filter_cons]
  | cons b t ih =>
    intro hs
    rw [List.sorted_cons] at hs
    rw [List.orderedInsert]
    by_cases hle : rowLe r b
    · rw [if_pos hle]
      simp [List.filter_cons]
    · rw [if_neg hle]
      have hbk : b.1 < r.1 := lt_of_not_le hle
      by_cases hk : r.1 = k
      · have hbne : ¬ (b.1 = k) := by rw [← hk]; exact ne_of_lt hbk
        simp [List.filter_cons, hbne, hk, ih hs.2]
      · simp [List.filter_cons, hk, ih hs.2]

theorem sort_index_filter_key {K V : Type} [LinearOrder K] (k : K) :
    ∀ l : List (K × V),
      (sort_index l).filter (fun x => decide (x.1 = k)) =
        l.filter (fun x => decide (x.1 = k)) := by
  intro l
  induction l with
  | nil => rfl
  | cons a t ih =>
    unfold sort_index at ih ⊢
    show (List.orderedInsert rowLe a (List.insertionSort rowLe t)).filter _ = _
    rw [filter_orderedInsert_key k a _ (List.sorted_insertionSort rowLe t)]
    by_cases hk : a.1 = k
    · rw [if_pos hk, ih]
      simp [List.filter_cons, hk]
    · rw [if_neg hk, ih]
      simp [List.filter_cons, hk]

theorem filter_key_ne_nil_iff_mem {K V : Type} [LinearOrder K] (k : K) :
    ∀ l : List (K × V), k ∈ l.map Prod.fst ↔
      l.filter (fun x => decide (x.1 = k)) ≠ [] := by
  intro l
  induction l with
  | nil => simp
  | cons a t ih =>
    by_cases hk : a.1 = k
    · simp [List.filter_cons, hk]
    · have hne : ¬ (k = a.1) := fun h => hk h.symm
      simp [List.filter_cons, hk, hne, ih]

theorem dedupKeepLast_filter_key {K V : Type} [LinearOrder K] (k : K) :
    ∀ l : List (K × V),
      (dedupKeepLast l).filter (fun x => decide (x.1 = k)) =
        ((l.filter (fun x => decide (x.1 = k))).getLast?).toList := by
  intro l
  induction l with
  | nil => rfl
  | cons kv rest ih =>
    rw [dedupKeepLast]
    by_cases hmem : kv.1 ∈ rest.map Prod.fst
    · rw [if_pos hmem]
      by_cases hk : kv.1 = k
      · have hne : rest.filter (fun x => decide (x.1 = k)) ≠ [] := by
          rw [← filter_key_ne_nil_iff_mem, ← hk]
          exact hmem
        obtain ⟨y, ys, hy⟩ : ∃ y ys, rest.filter (fun x => decide (x.1 = k)) = y :: ys := by
          cases h : rest.filter (fun x => decide (x.1 = k)) with
          | nil => exact absurd h hne
          | cons y ys => exact ⟨y, ys, rfl⟩
        have hstep : (kv :: rest).filter (fun x => decide (x.1 = k)) =
            kv :: rest.filter (fun x => decide (x.1 = k)) := by
          simp [List.filter_cons, hk]
        rw [ih, hstep, hy, List.getLast?_cons_cons]
      · have hstep : (kv :: rest).filter (fun x => decide (x.1 = k)) =
            rest.filter (fun x => decide (x.1 = k)) := by
          simp [List.filter_cons, hk]
        rw [ih, hstep]
    · rw [if_neg hmem]
      by_cases hk : kv.1 = k
      · have hnil : rest.filter (fun x => decide (x.1 = k)) = [] := by
          by_contra hne
          have hm : kv.1 ∈ rest.map Prod.fst := by
            rw [hk]
            exact (filter_key_ne_nil_iff_mem k rest).mpr hne
          exact hmem hm
        have hstep : (kv :: dedupKeepLast rest).filter (fun x => decide (x.1 = k)) =
            kv :: (dedupKeepLast rest).filter (fun x => decide (x.1 = k)) := by
          simp [List.filter_cons, hk]
        have hstep2 : (kv :: rest).filter (fun x => decide (x.1 = k)) =
            kv :: rest.filter (fun x => decide (x.1 = k)) := by
          simp [List.filter_cons, hk]
        rw [hstep, hstep2, ih, hnil]
        rfl
      · have hstep : (kv :: dedupKeepLast rest).filter (fun x => decide (x.1 = k)) =
            (dedupKeepLast rest).filter (fun x => decide (x.1 = k)) := by
          simp [List.filter_cons, hk]
        have hstep2 : (kv :: rest).filter (fun x => decide (x.1 = k)) =
            rest.filter (fun x => decide (x.1 = k)) := by
          simp [List.filter_cons, hk]
        rw [hstep, hstep2, ih]

/-! ## Claim theorems for the planner and dedup claims. -/

/-- C3: for start `2012Q1`, end `2019Q4` and the 3-year cap, the period
slicer yields exactly `[2012Q1-2014Q4, 2015Q1-2017Q4, 2018Q1-2019Q4]`;
in general (valid quarter digits) the chunk list is nonempty, starts at
the requested start, every chunk after the first starts one quarter after
the previous chunk's end, every chunk spans at most 3 years (end at most
11 quarter slots after start; non-final chunks end exactly at the quarter
preceding start + 3 years), and the final chunk ends at the requested
end. -/
theorem C3_sliced_quarters_chunks :
    sliced_quarters (2012, 1) (2019, 4) =
      [((2012, 1), (2014, 4)), ((2015, 1), (2017, 4)), ((2018, 1), (2019, 4))] ∧
    ∀ sy sq ey eq : Int, 1 ≤ sq → sq ≤ 4 → 1 ≤ eq → eq ≤ 4 →
      sliced_quarters (sy, sq) (ey, eq) ≠ [] ∧
      ((sliced_quarters (sy, sq) (ey, eq)).headI).1 = (sy, sq) ∧
      ((sliced_quarters (sy, sq) (ey, eq)).getLastD default).2 = (ey, eq) ∧
      List.Chain' (fun a b => b.1 = nextQ a.2) (sliced_quarters (sy, sq) (ey, eq)) ∧
      (∀ ab ∈ sliced_quarters (sy, sq) (ey, eq), qidx ab.2 - qidx ab.1 ≤ 11) ∧
      (∀ i, i + 1 < (sliced_quarters (sy, sq) (ey, eq)).length →
        ((sliced_quarters (sy, sq) (ey, eq)).getD i default).2 =
          prevQ (((sliced_quarters (sy, sq) (ey, eq)).getD i default).1.1 + 3,
                 ((sliced_quarters (sy, sq) (ey, eq)).getD i default).1.2)) := by
  constructor
  · decide
  · intro sy sq ey eq hs1 hs4 he1 he4
    exact slicedQuartersF_spec ((ey - sy).toNat + 1) sy sq ey eq (by omega) hs1 hs4 he1 he4

theorem C3_sliced_quarters_chunks_witness :
    sliced_quarters (2012, 1) (2019, 4) ≠ [] ∧
    ((sliced_quarters (2012, 1) (2019, 4)).headI).1 = (2012, 1) ∧
    ((sliced_quarters (2012, 1) (2019, 4)).getLastD default).2 = (2019, 4) ∧
    List.Chain' (fun a b => b.1 = nextQ a.2) (sliced_quarters (2012, 1) (2019, 4)) ∧
    (∀ ab ∈ sliced_quarters (2012, 1) (2019, 4), qidx ab.2 - qidx ab.1 ≤ 11) ∧
    (∀ i, i + 1 < (sliced_quarters (2012, 1) (2019, 4)).length →
      ((sliced_quarters (2012, 1) (2019, 4)).getD i default).2 =
        prevQ (((sliced_quarters (2012, 1) (2019, 4)).getD i default).1.1 + 3,
               ((sliced_quarters (2012, 1) (2019, 4)).getD i default).1.2)) :=
  C3_sliced_quarters_chunks.2 2012 1 2019 4 (by norm_num) (by norm_num)
    (by norm_num) (by norm_num)

/-- C4: the entity slicer partitions any ticker list into consecutive
chunks (concatenating the chunks gives back the input, so order is
preserved and each ticker is covered exactly once), each chunk has at
most 3 tickers, every non-final chunk has exactly 3, and a 7-element list
yields exactly the chunks `[1,2,3], [4,5,6], [7]`. -/
theorem C4_sliced_tickers_partition :
    (∀ l : List Int,
      (sliced_tickers l).flatten = l ∧
      (∀ c ∈ sliced_tickers l, c.length ≤ 3) ∧
      (∀ i, i + 1 < (sliced_tickers l).length →
        ((sliced_tickers l).getD i []).length = 3)) ∧
    sliced_tickers [1, 2, 3, 4, 5, 6, 7] = [[1, 2, 3], [4, 5, 6], [7]] :=
  ⟨fun l => ⟨sliced_tickers_flatten l, sliced_tickers_chunk_le l,
    fun i h => sliced_tickers_full l i h⟩, by decide⟩

theorem C4_sliced_tickers_partition_witness :
    0 + 1 < (sliced_tickers [1, 2, 3, 4]).length ∧
    ((sliced_tickers [1, 2, 3, 4]).getD 0 []).length = 3 :=
  ⟨by decide, (C4_sliced_tickers_partition.1 [1, 2, 3, 4]).2.2 0 (by decide)⟩

/-- C7: after the per-ticker pipeline of `get_quarter` (stable sort by
the `(fiscal_year, fiscal_quarter)` key, then drop index duplicates with
`keep="last"`), the rows surviving for any key `k` are exactly the last
row with key `k` in order of arrival — a reproducible arrival-order
tie-break — and each key present in the input survives exactly once. -/
theorem C7_duplicate_rows_last_wins {K V : Type} [LinearOrder K] :
    ∀ (l : List (K × V)) (k : K),
      (processRows l).filter (fun r => decide (r.1 = k)) =
        ((l.filter (fun r => decide (r.1 = k))).getLast?).toList ∧
      (l.filter (fun r => decide (r.1 = k)) ≠ [] →
        (processRows l).countP (fun r => decide (r.1 = k)) = 1) := by
  intro l k
  have h1 : (processRows l).filter (fun r => decide (r.1 = k)) =
      ((l.filter (fun r => decide (r.1 = k))).getLast?).toList := by
    unfold processRows
    rw [dedupKeepLast_filter_key, sort_index_filter_key]
  refine ⟨h1, fun hne => ?_⟩
  obtain ⟨y, ys, hy⟩ : ∃ y ys, l.filter (fun r => decide (r.1 = k)) = y :: ys := by
    cases h : l.filter (fun r => decide (r.1 = k)) with
    | nil => exact absurd h hne
    | cons y ys => exact ⟨y, ys, rfl⟩
  rw [List.countP_eq_length_filter, h1, hy]
  obtain ⟨z, hz⟩ : ∃ z, (y :: ys).getLast? = some z := ⟨(y :: ys).getLast (by simp),
    List.getLast?_eq_getLast _ (by simp)⟩
  rw [hz]
  rfl

theorem C7_duplicate_rows_last_wins_witness :
    [((1 : Int), (10 : Int)), (2, 20), (1, 30)].filter
        (fun r => decide (r.1 = (1 : Int))) ≠ [] ∧
    (processRows [((1 : Int), (10 : Int)), (2, 20), (1, 30)]).countP
        (fun r => decide (r.1 = (1 : Int))) = 1 :=
  ⟨by decide,
   (C7_duplicate_rows_last_wins [((1 : Int), (10 : Int)), (2, 20), (1, 30)] 1).2 (by decide)⟩

/-! ## Claim C5: quote-aware longest-first substitution. -/

/-- C5: `replace_value_str` substitutes referenced column names longest
first and never rewrites text inside a quoted string literal: with
columns `a` and `ab`, `ab+a` becomes `d['ab']+d['a']` (never a partially
replaced token), the expression `d['category']=="ab"` with column `ab`
keeps its double-quoted literal untouched, and the replacement callback
returns every token that starts with a quote character unchanged. -/
theorem C5_replace_value_str_quote_aware :
    replace_value_str ["ab+a".data] ["a".data, "ab".data] "d".data =
      ["d['ab']+d['a']".data] ∧
    replace_value_str ["d['category']==\"ab\"".data] ["ab".data] "d".data =
      ["d['category']==\"ab\"".data] ∧
    (∀ (c dfName : List Char) (t : Char) (rest : List Char),
      isQuote t = true → replaceVal c dfName (t :: rest) = t :: rest) := by
  refine ⟨by decide, by decide, ?_⟩
  intro c dfName t rest ht
  simp [replaceVal, ht]

theorem C5_replace_value_str_quote_aware_witness :
    isQuote '\'' = true ∧
    replaceVal "a".data "d".data ('\'' :: ['x']) = '\'' :: ['x'] :=
  ⟨rfl, C5_replace_value_str_quote_aware.2.2 "a".data "d".data '\'' ['x'] rfl⟩

/-! ## Claim C10: `BCAPI.get_company` strips `"` from `company_name_en`
(bc_api.py lines 415-425). -/

/-- One upstream company record: the English company name plus the other
fields, which `get_company` passes through untouched and are therefore
abstracted into a single opaque field. -/
structure CompanyRec where
  company_name_en : List Char
  other : Nat
deriving DecidableEq

/-- The row-construction loop of `BCAPI.get_company` on a successfully
fetched response `d` (after `column_description` is popped): one row per
`(ticker, record)` item, with `str(...).replace('"', '')` applied to
`company_name_en`. -/
def get_company_rows (d : List (Int × CompanyRec)) : List (Int × CompanyRec) :=
  d.map (fun kv =>
    (kv.1, { company_name_en := listReplace kv.2.company_name_en ['"'] [],
             other := kv.2.other }))

theorem not_mem_listReplaceF_single (c : Char) :
    ∀ (f : Nat) (s : List Char), s.length ≤ f → c ∉ listReplaceF f s [c] [] := by
  intro f
  induction f with
  | zero =>
    intro s hs
    have : s = [] := List.length_eq_zero.mp (Nat.le_zero.mp hs)
    subst this
    simp [listReplaceF]
  | succ f ih =>
    intro s hs
    cases s with
    | nil => simp [listReplaceF]
    | cons x rest =>
      rw [listReplaceF]
      by_cases hx : x = c
      · subst hx
        have hpre : [x].isPrefixOf (x :: rest) = true := by
          simp [List.isPrefixOf]
        rw [if_pos (by simp [hpre])]
        simpa using ih rest (by simpa using hs)
      · have hpre : [c].isPrefixOf (x :: rest) = false := by
          simp [List.isPrefixOf]
          exact fun h => absurd h.symm hx
        rw [if_neg (by simp [hpre])]
        intro hmem
        rcases List.mem_cons.mp hmem with h | h
        · exact hx h.symm
        · exact ih rest (by simpa using hs) h

/-- C10: every row produced by `get_company` has all double-quote
characters removed from its `company_name_en` value. -/
theorem C10_company_name_dequoted :
    ∀ (d : List (Int × CompanyRec)) (r : Int × CompanyRec),
      r ∈ get_company_rows d → '"' ∉ r.2.company_name_en := by
  intro d r hr
  simp only [get_company_rows, List.mem_map] at hr
  obtain ⟨kv, -, rfl⟩ := hr
  exact not_mem_listReplaceF_single '"' _ _ le_rfl

theorem C10_company_name_dequoted_witness :
    ((7 : Int), CompanyRec.mk ['A', 'B'] 0) ∈
      get_company_rows [((7 : Int), CompanyRec.mk ['A', '"', 'B'] 0)] ∧
    '"' ∉ (CompanyRec.mk ['A', 'B'] 0).company_name_en :=
  ⟨by decide, C10_company_name_dequoted [((7 : Int), CompanyRec.mk ['A', '"', 'B'] 0)]
    ((7 : Int), CompanyRec.mk ['A', 'B'] 0) (by decide)⟩

/-! ## Claim C6: the `cagr` aggregate of `BCDataQuarter.get_values`
(bc_data.py lines 120-152).  The per-ticker Q4 series is a list of
`(fiscal_year, value)` pairs in index order; a missing (NaN) float is
`none`, and exact real arithmetic stands in for IEEE float arithmetic. -/

/-- The `fiscal_year` index values of the series. -/
def cagrYears (series : List (Int × Option ℝ)) : List Int := series.map Prod.fst

/-- The start year: `years[0]` when `n is None`, else `ey - n`. -/
def cagrSY (series : List (Int × Option ℝ)) (n : Option Int) : Int :=
  match n with
  | none => (cagrYears series).headI
  | some m => (cagrYears series).getLastI - m

/-- `years.index(sy)`: position of the first occurrence of the start
year, `none` when the lookup raises `ValueError`. -/
def cagrIdx (series : List (Int × Option ℝ)) (n : Option Int) : Option Nat :=
  (cagrYears series).indexOf? (cagrSY series n)

/-- Forward fill (`fill_method="pad"`, the default of
`Series.pct_change`): a missing value takes the most recent earlier
value; leading missing values stay missing. -/
def ffill (carry : Option ℝ) : List (Option ℝ) → List (Option ℝ)
  | [] => []
  | some a :: rest => some a :: ffill (some a) rest
  | none :: rest => carry :: ffill carry rest

/-- The pandas change `(q - p) / p` is negative, spelled without
division so that the IEEE behaviour at `p = 0` is captured exactly:
for `p > 0` it is `q < p`, for `p < 0` it is `q > p`, and at `p = 0`
the change is `-inf` (negative) exactly when `q < 0` (`0/0` is NaN and
is dropped by `dropna`). -/
def negStep (p q : ℝ) : Prop :=
  (0 < p ∧ q < p) ∨ (p < 0 ∧ p < q) ∨ (p = 0 ∧ q < 0)

/-- Some consecutive pair of present values has a negative change. -/
def negPairs : List (Option ℝ) → Prop
  | x :: y :: rest =>
    (∃ p q, x = some p ∧ y = some q ∧ negStep p q) ∨ negPairs (y :: rest)
  | _ => False

/-- `(series[i:].pct_change().dropna() < 0).any()` on the window. -/
def negChange (w : List (Int × Option ℝ)) : Prop :=
  negPairs (ffill none (w.map (fun r => r.2)))

/-- The guard `v > 0` of `cagr`, on a possibly-NaN float: a missing
value compares false. -/
def posVal : Option ℝ → Prop
  | some v => 0 < v
  | none => False

noncomputable instance posVal.instDecidablePred : DecidablePred posVal := fun o =>
  match o with
  | some v => inferInstanceAs (Decidable (0 < v))
  | none => inferInstanceAs (Decidable False)

open Classical in
/-- `cagr(series, n=None, all_plus=False)` (bc_data.py lines 120-152).
`.ok none` is a NaN return, `.ok (some v)` a real result, and
`.error ()` the `ZeroDivisionError` raised when `ey = sy` (reachable
only with `n = some 0`); real `rpow` stands in for float `**`. -/
noncomputable def cagr (series : List (Int × Option ℝ)) (n : Option Int)
    (all_plus : Bool) : Except Unit (Option ℝ) :=
  if series.all (fun x => x.2.isNone) ∨ series.length < 2 then .ok none
  else
    let ey := (cagrYears series).getLastI
    let sy := cagrSY series n
    let e := (series.getLastI).2
    match cagrIdx series n with
    | none => .ok none
    | some i =>
      let s := (series.getD i default).2
      if posVal s ∧ posVal e then
        if ey = sy then .error ()
        else
          let val := ((e.iget / s.iget) ^ ((1 : ℝ) / ((ey : ℝ) - (sy : ℝ))) - 1) * 100
          if all_plus ∧ negChange (series.drop i) then .ok none else .ok (some val)
      else .ok none

theorem cagr_short (series : List (Int × Option ℝ)) (n : Option Int) (ap : Bool)
    (h : series.length < 2) : cagr series n ap = .ok none := by
  rw [cagr, if_pos (Or.inr h)]

theorem cagr_all_missing (series : List (Int × Option ℝ)) (n : Option Int) (ap : Bool)
    (h : ∀ x ∈ series, x.2 = none) : cagr series n ap = .ok none := by
  have hall : series.all (fun x => x.2.isNone) = true := by
    rw [List.all_eq_true]
    intro x hx
    rw [Option.isNone_iff_eq_none]
    exact h x hx
  rw [cagr, if_pos (Or.inl hall)]

theorem cagr_idx_missing (series : List (Int × Option ℝ)) (m : Int) (ap : Bool)
    (hidx : cagrIdx series (some m) = none) : cagr series (some m) ap = .ok none := by
  rw [cagr]
  by_cases hg : series.all (fun x => x.2.isNone) = true ∨ series.length < 2
  · rw [if_pos hg]
  · rw [if_neg hg]
    simp only [hidx]

theorem cagr_nonpos (series : List (Int × Option ℝ)) (n : Option Int) (ap : Bool)
    (i : Nat) (yi ye : Int) (sv ev : ℝ)
    (hidx : cagrIdx series n = some i)
    (hgi : series.getD i default = (yi, some sv))
    (hlast : series.getLastI = (ye, some ev))
    (hnp : sv ≤ 0 ∨ ev ≤ 0) :
    cagr series n ap = .ok none := by
  rw [cagr]
  by_cases hg : series.all (fun x => x.2.isNone) = true ∨ series.length < 2
  · rw [if_pos hg]
  · rw [if_neg hg]
    have hs2 : (series.getD i default).2 = some sv := by rw [hgi]
    have he2 : (series.getLastI).2 = some ev := by rw [hlast]
    simp only [hidx, hs2, he2]
    have hnot : ¬ (posVal (some sv) ∧ posVal (some ev)) := by
      simp only [posVal]
      rcases hnp with h | h
      · exact fun hc => absurd hc.1 (not_lt.mpr h)
      · exact fun hc => absurd hc.2 (not_lt.mpr h)
    rw [if_neg hnot]

theorem cagr_all_plus_neg (series : List (Int × Option ℝ)) (n : Option Int)
    (i : Nat)
    (hidx : cagrIdx series n = some i)
    (hne : (cagrYears series).getLastI ≠ cagrSY series n)
    (hneg : negChange (series.drop i)) :
    cagr series n true = .ok none := by
  rw [cagr]
  by_cases hg : series.all (fun x => x.2.isNone) = true ∨ series.length < 2
  · rw [if_pos hg]
  · rw [if_neg hg]
    simp only [hidx]
    by_cases hpos : posVal (series.getD i default).2 ∧ posVal (series.getLastI).2
    · rw [if_pos hpos, if_neg hne, if_pos ⟨rfl, hneg⟩]
    · rw [if_neg hpos]

theorem cagr_formula (series : List (Int × Option ℝ)) (n : Option Int) (ap : Bool)
    (i : Nat) (yi ye : Int) (sv ev : ℝ)
    (hg : ¬ (series.all (fun x => x.2.isNone) = true ∨ series.length < 2))
    (hidx : cagrIdx series n = some i)
    (hgi : series.getD i default = (yi, some sv))
    (hlast : series.getLastI = (ye, some ev))
    (hsv : 0 < sv) (hev : 0 < ev)
    (hne : (cagrYears series).getLastI ≠ cagrSY series n)
    (hap : ap = true → ¬ negChange (series.drop i)) :
    cagr series n ap = .ok (some (((ev / sv) ^
      ((1 : ℝ) / (((cagrYears series).getLastI : ℝ) - (cagrSY series n : ℝ))) - 1) * 100)) := by
  rw [cagr, if_neg hg]
  have hs2 : (series.getD i default).2 = some sv := by rw [hgi]
  have he2 : (series.getLastI).2 = some ev := by rw [hlast]
  simp only [hidx, hs2, he2, Option.iget_some]
  rw [if_pos (by simp only [posVal]; exact ⟨hsv, hev⟩), if_neg hne,
      if_neg (fun hc => hap hc.1 hc.2)]

theorem cagr_concrete :
    cagr [((0 : Int), some (100 : ℝ)), (2, some 121)] none false = .ok (some 10) := by
  rw [cagr]
  rw [if_neg (by decide)]
  simp only [show cagrIdx [((0 : Int), some (100 : ℝ)), (2, some 121)] none = some 0 from by
    decide]
  simp only [List.getD, List.getLastI_eq_getLast?]
  norm_num [cagrYears, cagrSY, posVal]
  have hpow : ((121 : ℝ) / 100) ^ ((1 : ℝ) / 2) = 11 / 10 := by
    have h1 : ((121 : ℝ) / 100) = (11 / 10 : ℝ) ^ (2 : ℕ) := by norm_num
    rw [h1, ← Real.rpow_natCast ((11 : ℝ) / 10) 2,
        ← Real.rpow_mul (by norm_num : (0 : ℝ) ≤ 11 / 10)]
    norm_num
  rw [hpow]
  norm_num

/-- C6: `cagr` returns NaN (`none`) when the series has fewer than 2
points, when all values are missing, when `n` is given and the year
`latest - n` is absent from the index, when the start or end value is
non-positive, or when `all_plus` and some year-over-year change in the
window is negative; otherwise it returns
`((end/start) ^ (1/(end_year - start_year)) - 1) * 100` exactly — in
particular `10.0` for start 100 at year 0 and end 121 at year 2. -/
theorem C6_cagr_semantics :
    (∀ (series : List (Int × Option ℝ)) (n : Option Int) (ap : Bool),
      series.length < 2 → cagr series n ap = .ok none) ∧
    (∀ (series : List (Int × Option ℝ)) (n : Option Int) (ap : Bool),
      (∀ x ∈ series, x.2 = none) → cagr series n ap = .ok none) ∧
    (∀ (series : List (Int × Option ℝ)) (m : Int) (ap : Bool),
      cagrIdx series (some m) = none → cagr series (some m) ap = .ok none) ∧
    (∀ (series : List (Int × Option ℝ)) (n : Option Int) (ap : Bool)
      (i : Nat) (yi ye : Int) (sv ev : ℝ),
      cagrIdx series n = some i → series.getD i default = (yi, some sv) →
      series.getLastI = (ye, some ev) → (sv ≤ 0 ∨ ev ≤ 0) →
      cagr series n ap = .ok none) ∧
    (∀ (series : List (Int × Option ℝ)) (n : Option Int) (i : Nat),
      cagrIdx series n = some i →
      (cagrYears series).getLastI ≠ cagrSY series n →
      negChange (series.drop i) → cagr series n true = .ok none) ∧
    (∀ (series : List (Int × Option ℝ)) (n : Option Int) (ap : Bool)
      (i : Nat) (yi ye : Int) (sv ev : ℝ),
      ¬ (series.all (fun x => x.2.isNone) = true ∨ series.length < 2) →
      cagrIdx series n = some i → series.getD i default = (yi, some sv) →
      series.getLastI = (ye, some ev) → 0 < sv → 0 < ev →
      (cagrYears series).getLastI ≠ cagrSY series n →
      (ap = true → ¬ negChange (series.drop i)) →
      cagr series n ap = .ok (some (((ev / sv) ^
        ((1 : ℝ) / (((cagrYears series).getLastI : ℝ) - (cagrSY series n : ℝ))) - 1) * 100))) ∧
    cagr [((0 : Int), some (100 : ℝ)), (2, some 121)] none false = .ok (some 10) :=
  ⟨cagr_short, cagr_all_missing, cagr_idx_missing, cagr_nonpos, cagr_all_plus_neg,
   cagr_formula, cagr_concrete⟩

theorem C6_cagr_semantics_witness :
    [((0 : Int), (none : Option ℝ))].length < 2 ∧
    cagr [((0 : Int), (none : Option ℝ))] none false = .ok none :=
  ⟨by norm_num,
   C6_cagr_semantics.1 [((0 : Int), (none : Option ℝ))] none false (by norm_num)⟩

/-! ## Claim C8: resolution precedence of `BCData.get_plot_values`
(bc_data.py lines 486-517), cache-miss branch.  A computed query result
is a list of `(output, column)` pairs in query order, a column holding
the per-entity values (`none` = NaN); output names are abstracted to
`Nat`.  `iVals` stands for `self.indicator.get_values(query) if
self.indicator is not None else None` (so `none` covers both an absent
indicator category and a query referencing no indicator column),
`qLoaded` for `self.quarter is not None`, and `qVals` for what
`self.quarter.get_values(query)` returns when it is invoked.  A `none`
result models a path that raises before `vals` is usable
(`AttributeError` when the quarter category is absent, a failed
`q_vals[col]` lookup) or that leaves `vals = None`, which raises at
`vals.columns` just below. -/

/-- A computed query table: output name, per-entity value column. -/
abbrev PlotTable : Type := List (Nat × List (Option ℝ))

/-- `np.isnan(col.astype(float)).all()` for one column. -/
def colAllNaN (col : List (Option ℝ)) : Bool := col.all Option.isNone

/-- `np.isnan(i_vals.astype(float)).all().any()`: some column is wholly
NaN. -/
def someColAllNaN (t : PlotTable) : Bool := t.any (fun col => colAllNaN col.2)

/-- The column lookup `q_vals[col]`. -/
def qcol (qt : PlotTable) (name : Nat) : Option (List (Option ℝ)) :=
  (qt.find? (fun p => p.1 == name)).map Prod.snd

/-- Column-by-column rebuild of `vals` that fails as a whole as soon as
one column fails (the Python loop raises there and `vals` never becomes
usable). -/
def tryMapCols (f : Nat × List (Option ℝ) → Option (Nat × List (Option ℝ))) :
    List (Nat × List (Option ℝ)) → Option (List (Nat × List (Option ℝ)))
  | [] => some []
  | c :: rest =>
    match f c, tryMapCols f rest with
    | some c', some rest' => some (c' :: rest')
    | _, _ => none

/-- The `vals` computation of the cache-miss branch of
`get_plot_values` (bc_data.py lines 489-505): take the indicator result
wholesale unless it is `None` or has some wholly-NaN column while
quarter data is loaded; in that case recompute from the quarter result,
column by column, keeping every indicator column that has at least one
defined value and substituting the quarter column for the wholly-NaN
ones. -/
def computeVals (iVals : Option PlotTable) (qLoaded : Bool)
    (qVals : Option PlotTable) : Option PlotTable :=
  match iVals with
  | none => if qLoaded then qVals else none
  | some it =>
    if someColAllNaN it ∧ qLoaded then
      match qVals with
      | none => none
      | some qt =>
        tryMapCols (fun nc =>
          if colAllNaN nc.2 then (qcol qt nc.1).map (fun q => (nc.1, q))
          else some nc) it
    else some it

theorem tryMapCols_total (f : Nat × List (Option ℝ) → Option (Nat × List (Option ℝ))) :
    ∀ t : List (Nat × List (Option ℝ)), (∀ c ∈ t, (f c).isSome = true) →
      ∃ t', tryMapCols f t = some t' ∧ t'.length = t.length ∧
        ∀ (j : Nat) (c : Nat × List (Option ℝ)), t[j]? = some c → t'[j]? = f c := by
  intro t
  induction t with
  | nil => intro _; exact ⟨[], rfl, rfl, by simp⟩
  | cons c rest ih =>
    intro h
    obtain ⟨c', hc'⟩ := Option.isSome_iff_exists.mp (h c (by simp))
    obtain ⟨rest', hr, hlen, hidx⟩ := ih (fun x hx => h x (by simp [hx]))
    refine ⟨c' :: rest', ?_, by simp [hlen], ?_⟩
    · rw [tryMapCols, hc', hr]
    · intro j x hj
      cases j with
      | zero =>
        simp only [List.getElem?_cons_zero, Option.some.injEq] at hj
        subst hj
        simp [hc']
      | succ k =>
        simp only [List.getElem?_cons_succ] at hj ⊢
        exact hidx k x hj

/-- C8: on a cache miss, whenever the indicator result has at least one
defined entry for an output, that output keeps the indicator column;
the quarterly column is substituted for an output only when the
indicator column is wholly NaN (and when the indicator result is absent
entirely, the quarterly result is used wholesale).  The choice is per
output column, never per entity. -/
theorem C8_plot_value_precedence :
    (∀ qVals : Option PlotTable, computeVals none true qVals = qVals) ∧
    (∀ it qt : PlotTable,
      (∀ nc ∈ it, colAllNaN nc.2 = true → (qcol qt nc.1).isSome = true) →
      ∃ rt : List (Nat × List (Option ℝ)),
        computeVals (some it) true (some qt) = some rt ∧
        rt.length = it.length ∧
        ∀ (j : Nat) (nc : Nat × List (Option ℝ)),
          it[j]? = some nc →
          (colAllNaN nc.2 = false → rt[j]? = some nc) ∧
          (∀ q, colAllNaN nc.2 = true → qcol qt nc.1 = some q →
            rt[j]? = some (nc.1, q))) := by
  constructor
  · intro qVals
    rfl
  · intro it qt hcov
    by_cases hB : someColAllNaN it = true
    · obtain ⟨rt, hrt, hlen, hidx⟩ :=
        tryMapCols_total
          (fun nc => if colAllNaN nc.2 then (qcol qt nc.1).map (fun q => (nc.1, q))
                     else some nc)
          it
          (by
            intro c hc
            by_cases hcn : colAllNaN c.2 = true
            · simp only [hcn, if_true]
              obtain ⟨q, hq⟩ := Option.isSome_iff_exists.mp (hcov c hc hcn)
              simp [hq]
            · simp [hcn])
      refine ⟨rt, ?_, hlen, ?_⟩
      · show computeVals (some it) true (some qt) = some rt
        rw [computeVals]
        rw [if_pos ⟨hB, rfl⟩]
        exact hrt
      · intro j nc hj
        have hrj := hidx j nc hj
        constructor
        · intro hcn
          rw [hrj, hcn]
          rfl
        · intro q hcn hq
          rw [hrj, hcn]
          simp [hq]
    · refine ⟨it, ?_, rfl, ?_⟩
      · show computeVals (some it) true (some qt) = some it
        rw [computeVals]
        rw [if_neg (fun hc => hB hc.1)]
      · intro j nc hj
        have hmem : nc ∈ it := List.getElem?_mem hj
        constructor
        · intro _
          exact hj
        · intro q hcn _
          exact absurd (List.any_eq_true.mpr ⟨nc, hmem, hcn⟩) hB

/-- Concrete indicator table for the C8 witness: output 0 has a defined
entry, output 1 is wholly NaN. -/
def c8It : PlotTable := [(0, [some 1, none]), (1, [none, none])]

/-- Concrete quarter table for the C8 witness. -/
def c8Qt : PlotTable := [(0, [some 5, some 6]), (1, [some 7, some 8])]

theorem C8_plot_value_precedence_witness :
    (∀ nc ∈ c8It, colAllNaN nc.2 = true → (qcol c8Qt nc.1).isSome = true) ∧
    ∃ rt : List (Nat × List (Option ℝ)),
      computeVals (some c8It) true (some c8Qt) = some rt ∧
      rt.length = c8It.length ∧
      ∀ (j : Nat) (nc : Nat × List (Option ℝ)), c8It[j]? = some nc →
        (colAllNaN nc.2 = false → rt[j]? = some nc) ∧
        (∀ q, colAllNaN nc.2 = true → qcol c8Qt nc.1 = some q →
          rt[j]? = some (nc.1, q)) :=
  ⟨by decide, C8_plot_value_precedence.2 c8It c8Qt (by decide)⟩

/-! ## The resilient fetch executor: `BCAPI.__fetch_safe` (bc_api.py
lines 146-190) and its drivers `BCAPI.get_quarter` (lines 260-339) and
`BCAPI.get_indicator` (lines 341-391).

Time is modelled in seconds as `Nat` ticks starting at 0; the
`time.sleep(1)` inside `BCAPI.__get` makes every external call consume
one tick.  External responses and the cross-thread `stop_fetch` flag
form an oracle environment: `resp k` is the outcome of the `k`-th
external call of the plan and `stopAt t` the value of `self.stop_fetch`
at tick `t`.  `retry` is the configured retry interval in minutes
(`timedelta(seconds=retry*60)`), and the quota backoff is
`timedelta(days=1)` = 86400 ticks.

The backoff wait of `__fetch_safe` polls with a bare `sleep(1)` (line
168).  The module only does `import time` and defines no `sleep` (the
call used everywhere else is `time.sleep(1)`, line 73), so reaching that
statement raises `NameError`.  The parameter `sleepOk` selects between
the faithful model of the source (`sleepOk = false`: the poll tick
raises `NameError`) and the evident intent (`sleepOk = true`: the poll
tick sleeps one second).  The per-call post-processing sink `func` is
modelled at its default `None`; the returned result list is exactly what
the sink receives chunk by chunk. -/

/-- Outcome of one external call: parsed data (a column-definition
identifier plus per-ticker row lists, `none` for a ticker whose entry is
`None`), the `"Limit Exceeded"` error, or any other error. -/
inductive QResp (K V : Type) where
  | ok (colDict : Nat) (data : Int → Option (List (K × V)))
  | exceeded
  | err

/-- Oracle environment: per-call responses and the stop flag per tick. -/
structure FetchEnv (K V : Type) where
  resp : Nat → QResp K V
  stopAt : Nat → Bool

/-- Abnormal exits of `__fetch_safe`.  `fuelOut` is an artefact of
bounded modelling (never reached when enough fuel is supplied), not a
program behaviour. -/
inductive FetchExn where
  | stopped
  | nameError
  | fetchError
  | fuelOut
deriving DecidableEq

/-- `__fetch_safe(retry, func, ...)`: one recursive step per iteration
of the `while not self.stop_fetch` loop, carrying the current tick `t`,
the scheduled `retry_time` `rt` (initialised to the distant past,
modelled as tick 0) and the index `k` of the next external call.  On
success it returns the parsed response with the next `(t, k)`. -/
def fetchSafe {K V : Type} (sleepOk : Bool) (env : FetchEnv K V) (retry : Int) :
    Nat → Nat → Nat → Nat →
    Except FetchExn ((Nat × (Int → Option (List (K × V)))) × Nat × Nat)
  | 0, _, _, _ => .error .fuelOut
  | fuel + 1, t, rt, k =>
    if env.stopAt t then .error .stopped
    else if t < rt then
      if sleepOk then fetchSafe sleepOk env retry fuel (t + 1) rt k
      else .error .nameError
    else
      match env.resp k with
      | .ok c data => .ok ((c, data), t + 1, k + 1)
      | .exceeded => fetchSafe sleepOk env retry fuel (t + 1) (t + 1 + 86400) (k + 1)
      | .err =>
        if retry < 0 then .error .fetchError
        else fetchSafe sleepOk env retry fuel (t + 1) (t + 1 + retry.toNat * 60) (k + 1)

/-- Abnormal exits of `get_quarter` / `get_indicator`: those of
`__fetch_safe` except `BCFetchStopped` (which they catch), plus the
`RuntimeError` raised on a column-definition mismatch. -/
inductive PlanExn where
  | nameError
  | fetchError
  | mismatch
  | fuelOut
deriving DecidableEq

/-- Lines 305-319 of `get_quarter`: one ticker's slice of one response
becomes `None` when absent or empty, otherwise it is keyed, sorted and
deduplicated keeping the last duplicate. -/
def quarterDf {K V : Type} [LinearOrder K]
    (data : Int → Option (List (K × V))) (tk : Int) : Option (List (K × V)) :=
  match data tk with
  | none => none
  | some l => if l.isEmpty then none else some (processRows l)

/-- Lines 325-329 of `get_quarter`: merge one period chunk's per-ticker
frames into the accumulated ones (`pd.concat` appends rows; a `None`
side is replaced by the other side). -/
def mergeTs {K V : Type} (acc dfs : List (Option (List (K × V)))) :
    List (Option (List (K × V))) :=
  acc.zipWith (fun a d =>
    match a, d with
    | none, d' => d'
    | some x, none => some x
    | some x, some y => some (x ++ y)) dfs

/-- Result of the inner (period) loop of `get_quarter` for one ticker
chunk: stopped (with the current column dictionary and clock), an
escaping exception, or the accumulated per-ticker frames. -/
inductive StepOut (K V : Type) where
  | stopped (cd : Option Nat) (t k : Nat)
  | exn (e : PlanExn)
  | ok (resTs : List (Option (List (K × V)))) (cd : Option Nat) (t k : Nat)

/-- The period-chunk loop of `get_quarter` (lines 294-329) for one
ticker chunk `ts`: fetch each period chunk through `__fetch_safe`,
check the column-definition dictionary, build the per-ticker frames and
merge them into the accumulator (`results_ts`). -/
def gqPeriods {K V : Type} [LinearOrder K] (sleepOk : Bool) (env : FetchEnv K V)
    (F : Nat) (retry : Int) (ts : List Int) :
    List ((Int × Int) × (Int × Int)) → Bool → List (Option (List (K × V))) →
    Option Nat → Nat → Nat → StepOut K V
  | [], _, acc, cd, t, k => .ok acc cd t k
  | _ :: ps, isFirst, acc, cd, t, k =>
    match fetchSafe sleepOk env retry F t 0 k with
    | .error .stopped => .stopped cd t k
    | .error .nameError => .exn .nameError
    | .error .fetchError => .exn .fetchError
    | .error .fuelOut => .exn .fuelOut
    | .ok ((c, data), t', k') =>
      match cd with
      | some c0 =>
        if c0 = c then
          gqPeriods sleepOk env F retry ts ps false
            (let dfs := ts.map (quarterDf data)
             if isFirst then dfs else mergeTs acc dfs) (some c0) t' k'
        else .exn .mismatch
      | none =>
        gqPeriods sleepOk env F retry ts ps false
          (let dfs := ts.map (quarterDf data)
           if isFirst then dfs else mergeTs acc dfs) (some c) t' k'

/-- The ticker-chunk loop of `get_quarter` (lines 291-337): run the
period loop per chunk, append the chunk's frames to `results`, and on
`BCFetchStopped` return whatever was accumulated so far (the `except
BCFetchStopped: pass` of line 336). -/
def gqChunks {K V : Type} [LinearOrder K] (sleepOk : Bool) (env : FetchEnv K V)
    (F : Nat) (retry : Int) (periods : List ((Int × Int) × (Int × Int))) :
    List (List Int) → List (Option (List (K × V))) → Option Nat → Nat → Nat →
    Except PlanExn ((List (Option (List (K × V))) × Option Nat) × Nat × Nat)
  | [], results, cd, t, k => .ok ((results, cd), t, k)
  | ts :: more, results, cd, t, k =>
    match gqPeriods sleepOk env F retry ts periods true [] cd t k with
    | .stopped cd' t' k' => .ok ((results, cd'), t', k')
    | .exn e => .error e
    | .ok resTs cd' t' k' =>
      gqChunks sleepOk env F retry periods more (results ++ resTs) cd' t' k'

/-- `BCAPI.get_quarter(tickers, start, end, func=None, retry)`:
per-ticker-chunk, per-period-chunk execution returning `(results,
col_dict)` together with the final clock and call count. -/
def getQuarter {K V : Type} [LinearOrder K] (sleepOk : Bool) (env : FetchEnv K V)
    (F : Nat) (retry : Int) (tickers : List Int) (s e : Int × Int) :
    Except PlanExn ((List (Option (List (K × V))) × Option Nat) × Nat × Nat) :=
  gqChunks sleepOk env F retry (sliced_quarters s e) (sliced_tickers tickers) [] none 0 0

/-- Lines 374-382 of `get_indicator`: one ticker's slice of a response
becomes `None` when absent or empty, otherwise a one-row frame from its
first record. -/
def indicatorDf {K V : Type} (data : Int → Option (List (K × V))) (tk : Int) :
    Option (List (K × V)) :=
  match data tk with
  | none => none
  | some [] => none
  | some (r :: _) => some [r]

/-- The ticker-chunk loop of `get_indicator` (lines 361-389): one call
per chunk, column-dictionary check, then `results.extend(dfs)`; on
`BCFetchStopped` the accumulated results are returned. -/
def giChunks {K V : Type} (sleepOk : Bool) (env : FetchEnv K V)
    (F : Nat) (retry : Int) :
    List (List Int) → List (Option (List (K × V))) → Option Nat → Nat → Nat →
    Except PlanExn ((List (Option (List (K × V))) × Option Nat) × Nat × Nat)
  | [], results, cd, t, k => .ok ((results, cd), t, k)
  | ts :: more, results, cd, t, k =>
    match fetchSafe sleepOk env retry F t 0 k with
    | .error .stopped => .ok ((results, cd), t, k)
    | .error .nameError => .error .nameError
    | .error .fetchError => .error .fetchError
    | .error .fuelOut => .error .fuelOut
    | .ok ((c, data), t', k') =>
      match cd with
      | some c0 =>
        if c0 = c then
          giChunks sleepOk env F retry more (results ++ ts.map (indicatorDf data))
            (some c0) t' k'
        else .error .mismatch
      | none =>
        giChunks sleepOk env F retry more (results ++ ts.map (indicatorDf data))
          (some c) t' k'

/-- `BCAPI.get_indicator(tickers, func=None, retry)`. -/
def getIndicator {K V : Type} (sleepOk : Bool) (env : FetchEnv K V)
    (F : Nat) (retry : Int) (tickers : List Int) :
    Except PlanExn ((List (Option (List (K × V))) × Option Nat) × Nat × Nat) :=
  giChunks sleepOk env F retry (sliced_tickers tickers) [] none 0 0

/-- C9: with an empty ticker list the entity slicer yields no chunk, so
`get_quarter` and `get_indicator` make no external call (the call count
stays 0) and return the empty results list with a `None` column
dictionary. -/
theorem C9_empty_tickers_no_calls {K V : Type} [LinearOrder K] :
    ∀ (sleepOk : Bool) (env : FetchEnv K V) (F : Nat) (retry : Int) (s e : Int × Int),
      getQuarter sleepOk env F retry [] s e = .ok (([], none), 0, 0) ∧
      getIndicator sleepOk env F retry [] = .ok (([], none), 0, 0) :=
  fun _ _ _ _ _ _ => ⟨rfl, rfl⟩

/-- Environment of the C1 failing input: every call answers
`"Limit Exceeded"`; the stop flag is never set. -/
def quotaEnv : FetchEnv Int Int :=
  { resp := fun _ => .exceeded, stopAt := fun _ => false }

/-- Environment for the intended-behaviour part of C1: the first call
answers `"Limit Exceeded"`, every later call succeeds with empty data. -/
def quotaThenOkEnv : FetchEnv Int Int :=
  { resp := fun k => if k = 0 then .exceeded else .ok 0 (fun _ => none),
    stopAt := fun _ => false }

/-- In the intended model (`sleepOk = true`) the wait loop only
advances the clock while `t < rt`: no external call happens during the
backoff window, and execution resumes at `rt` with the call index
unchanged. -/
theorem fetchSafe_poll_skip {K V : Type} (env : FetchEnv K V) (retry : Int)
    (hstop : ∀ u, env.stopAt u = false) :
    ∀ (w t rt k fuel : Nat), t + w = rt →
      fetchSafe true env retry (fuel + w) t rt k =
        fetchSafe true env retry fuel rt rt k := by
  intro w
  induction w with
  | zero =>
    intro t rt k fuel ht
    rw [Nat.add_zero] at ht
    rw [ht]
    rfl
  | succ w ih =>
    intro t rt k fuel ht
    have hlt : t < rt := by omega
    show fetchSafe true env retry ((fuel + w) + 1) t rt k = _
    rw [fetchSafe, hstop t]
    simp only [Bool.false_eq_true, if_false, if_pos hlt, if_pos rfl]
    exact ih (t + 1) rt k fuel (by omega)

/-- C1 (code bug, bc_api.py line 168): a quota-exceeded response makes
`__fetch_safe` schedule the 24-hour retry time, but the first poll tick
of the wait executes the bare `sleep(1)` — a `NameError`, since the
module only does `import time` — which `get_quarter` does not catch: the
plan fails instead of backing off.  In the intended model (`time.sleep`)
the executor issues no call during the 86400-tick window and re-attempts
the same call exactly when the window closes. -/
theorem C1_quota_backoff_crashes :
    getQuarter false quotaEnv 10 5 [1] (2012, 1) (2012, 4) = .error .nameError ∧
    fetchSafe false quotaEnv 5 10 0 0 0 = .error .nameError ∧
    ∀ F : Nat, fetchSafe true quotaThenOkEnv 5 (F + 86402) 0 0 0 =
      .ok ((0, fun _ => none), 86402, 2) := by
  refine ⟨rfl, rfl, ?_⟩
  intro F
  have h1 : fetchSafe true quotaThenOkEnv 5 (F + 86402) 0 0 0 =
      fetchSafe true quotaThenOkEnv 5 (F + 86401) 1 86401 1 := by
    rw [show F + 86402 = (F + 86401) + 1 from by omega]
    rw [fetchSafe]
    rw [show quotaThenOkEnv.stopAt 0 = false from rfl]
    simp only [Bool.false_eq_true, if_false]
    rw [if_neg (by omega : ¬ (0 : Nat) < 0)]
    rw [show quotaThenOkEnv.resp 0 = QResp.exceeded from rfl]
  have h2 : fetchSafe true quotaThenOkEnv 5 (F + 86401) 1 86401 1 =
      fetchSafe true quotaThenOkEnv 5 (F + 1) 86401 86401 1 := by
    rw [show F + 86401 = (F + 1) + 86400 from by omega]
    exact fetchSafe_poll_skip quotaThenOkEnv 5 (fun _ => rfl) 86400 1 86401 1 (F + 1)
      (by omega)
  have h3 : fetchSafe true quotaThenOkEnv 5 (F + 1) 86401 86401 1 =
      .ok ((0, fun _ => none), 86402, 2) := rfl
  rw [h1, h2, h3]

/-- Environment of the C2 failing input: every call answers
`"Limit Exceeded"`, and the stop flag is raised from tick 2 onward —
i.e. during the 24-hour quota wait that begins at tick 1. -/
def quotaStopEnv : FetchEnv Int Int :=
  { resp := fun _ => .exceeded, stopAt := fun t => decide (2 ≤ t) }

/-- Environment for the call-boundary part of C2: calls succeed, and
the stop flag is raised from tick 1 onward (after the first call). -/
def stopMidEnv : FetchEnv Int Int :=
  { resp := fun _ => .ok 0 (fun _ => some [(1, 100)]),
    stopAt := fun t => decide (1 ≤ t) }

/-- C2 (code bug, bc_api.py line 168): when the stop flag is raised
while the executor waits out a quota backoff, the next poll tick raises
`NameError` (bare `sleep(1)`) before the flag is ever re-read, so
`get_quarter` propagates an exception instead of returning the sunk
results (first conjunct).  At a call-attempt boundary the flag is
honoured: the loop raises `BCFetchStopped`, `get_quarter` catches it and
returns exactly the completed chunks' frames without error (second
conjunct: one of two chunks completed before the flag was seen). -/
theorem C2_cancellation_behaviour :
    getQuarter false quotaStopEnv 10 5 [1] (2012, 1) (2012, 4) = .error .nameError ∧
    getQuarter false stopMidEnv 10 5 [1, 2, 3, 4] (2012, 1) (2012, 4) =
      .ok (([some [(1, 100)], some [(1, 100)], some [(1, 100)]], some 0), 1, 1) :=
  ⟨rfl, rfl⟩

end BC